import Mathlib

/-!
# Verification of the fixture-aggregation core of `matches.py`

This file gives a shallow embedding, in Lean 4, of the core of the
repository's single source file `src/matches.py`: the team-name
normalizer (`normalize_team_name`), the fuzzy equivalence engine
(`names_equivalent`, `teams_match`), the ban filter
(`load_banned_tournaments`, `is_banned_match`), the per-record parsing
loops of the OneFootball and AllFootball fetchers, and the two-pass
corroboration/merge engine (`merge_matches`), including its channel
deduplication and its final sort by `kickoff_key`.

Python strings are embedded as Lean `String` (in this toolchain a
wrapper around `List Char`), and the string operations the source uses
(`str.lower`, `str.strip`, `str.split`, `re.sub`, substring tests) are
given explicit executable list-based definitions so every claim can be
evaluated on concrete inputs by `decide`.
-/

/-! ## Character-level operations

`matches.py` manipulates strings with `str.lower()`, `str.strip()`,
`str.split()`, `re.sub(r"[^a-z ]", " ", ·)` and `re.sub(r"\s+", " ", ·)`.
These are modelled character-by-character below.
-/

/-- Python's `needle in haystack` substring test, on character lists. -/
def containsSub (needle : List Char) : List Char → Bool
  | [] => needle.isEmpty
  | c :: cs => needle.isPrefixOf (c :: cs) || containsSub needle cs

/-- Python's `needle in haystack` substring test, on strings. -/
def strContains (needle hay : String) : Bool :=
  containsSub needle.data hay.data

/-- Python's `str.lower()` (the source only ever lowers ASCII data). -/
def strLower (s : String) : String :=
  String.mk (s.data.map Char.toLower)

/-- `str.strip()` on a character list: drop leading and trailing whitespace. -/
def pyStripList (l : List Char) : List Char :=
  ((l.dropWhile Char.isWhitespace).reverse.dropWhile Char.isWhitespace).reverse

/-- Python's `str.strip()`. -/
def strStrip (s : String) : String :=
  String.mk (pyStripList s.data)

/-- `re.sub(r"\s+", " ", ·)`: collapse every maximal whitespace run to a
single space.  The boolean argument records whether the previous
character was whitespace. -/
def collapseWsGo : Bool → List Char → List Char
  | _, [] => []
  | prevWs, c :: cs =>
    if c.isWhitespace then
      if prevWs then collapseWsGo true cs else ' ' :: collapseWsGo true cs
    else c :: collapseWsGo false cs

/-- `re.sub(r"\s+", " ", ·)` on a character list. -/
def collapseWs (l : List Char) : List Char :=
  collapseWsGo false l

/-- Python's no-argument `str.split()`: split on whitespace runs,
discarding empty pieces.  `cur` accumulates the current word reversed. -/
def pySplitGo (cur : List Char) : List Char → List (List Char)
  | [] => if cur.isEmpty then [] else [cur.reverse]
  | c :: cs =>
    if c.isWhitespace then
      if cur.isEmpty then pySplitGo [] cs else cur.reverse :: pySplitGo [] cs
    else pySplitGo (c :: cur) cs

/-- Python's no-argument `str.split()` on a character list. -/
def pySplit (l : List Char) : List (List Char) :=
  pySplitGo [] l

/-! ## Name Normalizer (`normalize_team_name`, `matches.py` lines 64-72) -/

/-- Modelled from the spec: the library call
`unicodedata.normalize("NFKD", name).encode("ascii", "ignore")` —
"decompose accented/diacritic characters to their base Latin letters and
drop all non-ASCII residue".  ASCII characters are unchanged; the common
precomposed Latin letters decompose to their base letter (the combining
accent is non-ASCII and is dropped); every other non-ASCII character is
dropped. -/
def nfkdAscii (c : Char) : List Char :=
  if c.toNat < 128 then [c]
  else if c ∈ ['à', 'á', 'â', 'ã', 'ä', 'å'] then ['a']
  else if c ∈ ['À', 'Á', 'Â', 'Ã', 'Ä', 'Å'] then ['A']
  else if c ∈ ['è', 'é', 'ê', 'ë'] then ['e']
  else if c ∈ ['È', 'É', 'Ê', 'Ë'] then ['E']
  else if c ∈ ['ì', 'í', 'î', 'ï'] then ['i']
  else if c ∈ ['Ì', 'Í', 'Î', 'Ï'] then ['I']
  else if c ∈ ['ò', 'ó', 'ô', 'õ', 'ö'] then ['o']
  else if c ∈ ['Ò', 'Ó', 'Ô', 'Õ', 'Ö'] then ['O']
  else if c ∈ ['ù', 'ú', 'û', 'ü'] then ['u']
  else if c ∈ ['Ù', 'Ú', 'Û', 'Ü'] then ['U']
  else if c ∈ ['ñ'] then ['n']
  else if c ∈ ['Ñ'] then ['N']
  else if c ∈ ['ç'] then ['c']
  else if c ∈ ['Ç'] then ['C']
  else if c ∈ ['ý', 'ÿ'] then ['y']
  else []

/-- `re.sub(r"[^a-z ]", " ", ·)` applied to one character: characters
outside lower-case `a`-`z` and the space are replaced by a space. -/
def subChar (c : Char) : Char :=
  if ('a' ≤ c ∧ c ≤ 'z') ∨ c = ' ' then c else ' '

/-- Python's `" ".join(tokens)` on character-list tokens. -/
def joinSpace : List (List Char) → List Char
  | [] => []
  | [w] => w
  | w :: rest => w ++ ' ' :: joinSpace rest

/-- The fixed stopword set of `normalize_team_name`. -/
def stopwords : List (List Char) :=
  [['f', 'c'], ['c', 'f'], ['c', 'l', 'u', 'b'], ['t', 'h', 'e'],
   ['t', 'e', 'a', 'm'],
   ['d', 'e', 'p', 'o', 'r', 't', 'i', 'v', 'o']]

/-- `normalize_team_name` (`matches.py` lines 64-72): ASCII-fold, lower,
replace non-`[a-z ]` by spaces, collapse/strip whitespace, split into
tokens, drop stopwords, re-join with single spaces. -/
def normalize_team_name (name : String) : String :=
  if name = "" then ""
  else
    let folded := (name.data.map nfkdAscii).flatten
    let lowered := folded.map Char.toLower
    let subbed := lowered.map subChar
    let stripped := pyStripList (collapseWs subbed)
    let toks := pySplit stripped
    let kept := toks.filter (fun t => !(stopwords.contains t))
    String.mk (joinSpace kept)

/-! ## Equivalence Engine (`names_equivalent`, `matches.py` lines 74-90)

The source compares normalized names with `rapidfuzz.fuzz.ratio` and
`rapidfuzz.fuzz.partial_ratio`.  `fuzz.ratio` is the normalized InDel
similarity: `100 * (1 - dist/(len1+len2))` where `dist` is the
insertion/deletion edit distance, i.e. `100 * 2*lcs/(len1+len2)` with
`lcs` the longest-common-subsequence length.  The source only ever uses
these values through `... >= 80`, which is embedded with the denominator
cleared so that it is kernel-computable (for two empty strings rapidfuzz
returns `100.0`, and the cleared form `k*0 ≤ 200*0` agrees for `k ≤ 100`).
-/

/-- One row of the longest-common-subsequence dynamic program: `diag`
and `left` are the values at the previous row's `j-1` and the current
row's `j-1`; the list argument carries the previous row from `j` on. -/
def lcsRowGo (c : Char) : List Char → List Nat → Nat → Nat → List Nat
  | [], _, _, _ => []
  | _ :: _, [], _, _ => []
  | y :: ys, pj :: prest, diag, left =>
    let cur := if c = y then diag + 1 else max left pj
    cur :: lcsRowGo c ys prest pj cur

/-- Longest-common-subsequence length of two character lists. -/
def lcsLen (l1 l2 : List Char) : Nat :=
  (l1.foldl (fun prev c => lcsRowGo c l2 prev 0 0) (l2.map fun _ => 0)).getLastD 0

namespace fuzz

/-- `rapidfuzz.fuzz.ratio(s1, s2) >= k`, with the denominator cleared:
the ratio is `200 * lcs / (len1 + len2)` on a 0-100 scale. -/
def ratio_ge (k : Nat) (s1 s2 : String) : Bool :=
  decide (k * (s1.data.length + s2.data.length) ≤ 200 * lcsLen s1.data s2.data)

/-- All contiguous substrings of a character list. -/
def substringsOf (l : List Char) : List (List Char) :=
  (l.tails.map List.inits).flatten

/-- Modelled from the rapidfuzz documentation of `fuzz.partial_ratio`
(an external library function): it "searches for the optimal alignment
of the shorter string in the longer string and returns the fuzz.ratio
for this alignment", i.e. the best `ratio` between the shorter string
and a contiguous substring of the longer one.  `part_ratio_ge k s1 s2`
is that best value compared with `k`: it holds iff some contiguous
substring of the longer string reaches ratio `k` against the shorter. -/
def part_ratio_ge (k : Nat) (s1 s2 : String) : Bool :=
  let shorter := if s1.data.length ≤ s2.data.length then s1.data else s2.data
  let longer := if s1.data.length ≤ s2.data.length then s2.data else s1.data
  (substringsOf longer).any
    (fun sub => decide (k * (shorter.length + sub.length) ≤ 200 * lcsLen shorter sub))

end fuzz

/-- `names_equivalent` (`matches.py` lines 74-87): the short-circuit
cascade — empty normalized form, token-set overlap, whole-string ratio,
best partial alignment, substring containment. -/
def names_equivalent (n1 n2 : String) : Bool :=
  let t1 := normalize_team_name n1
  let t2 := normalize_team_name n2
  if t1 = "" || t2 = "" then false
  else if (pySplit t1.data).any (fun tk => (pySplit t2.data).contains tk) then true
  else if fuzz.ratio_ge 80 t1 t2 then true
  else if fuzz.part_ratio_ge 80 t1 t2 then true
  else if containsSub t1.data t2.data || containsSub t2.data t1.data then true
  else false

/-- `teams_match` (`matches.py` lines 89-90): both sides must match,
home with home and away with away. -/
def teams_match (h1 a1 h2 a2 : String) : Bool :=
  names_equivalent h1 h2 && names_equivalent a1 a2

/-! ## Ban Filter (`matches.py` lines 24-61) -/

/-- `load_banned_tournaments` (`matches.py` lines 24-32).  The file is
embedded as `none` (missing, `FileNotFoundError`) or `some lines`; the
Python set comprehension
`\x7bline.strip().lower() for line in f if line.strip()\x7d` is embedded
as the list of its entries, one per non-blank line (membership-equivalent
to the set). -/
def load_banned_tournaments (file : Option (List String)) : List String :=
  match file with
  | none => []
  | some lines =>
    lines.filterMap
      (fun line => if strStrip line = "" then none else some (strLower (strStrip line)))

/-- The youth/reserve markers of `is_banned_match`. -/
def youth_patterns : List String :=
  ["u18", "u19", "u21", "u23", "youth", "reserve", "reserves", "academy"]

/-- `is_banned_match` (`matches.py` lines 36-61).  The module-level
`BANNED_TOURNAMENTS_LOWER` set is passed in as the `banned` argument.
(The Python guard `if not competition: competition = ""` is vacuous
here: `competition` is always a string.) -/
def is_banned_match (banned : List String) (home away competition : String) : Bool :=
  let lname := strLower (strStrip competition)
  if banned.contains lname then true
  else if strContains "women" lname || strContains "nwsl" lname then true
  else if youth_patterns.any (fun p => strContains p lname) then true
  else if strContains "women" (strLower home) || strContains "women" (strLower away) then true
  else if youth_patterns.any (fun p => strContains p (strLower home))
       || youth_patterns.any (fun p => strContains p (strLower away)) then true
  else false

/-! ## Timestamps

`matches.py` parses timestamps with `datetime.strptime` and renders them
with `strftime("%Y-%m-%d %H:%M")` after converting to Africa/Nairobi,
a fixed UTC+3 zone with no daylight saving.  Timestamps are embedded at
minute granularity; `strptime`'s field validation (month 1-12, day valid
for the month and leap year, hour 0-23, minute/second 0-59) is explicit.
The embedded parsers accept exactly the zero-padded forms, which are the
forms the fetchers produce with `strftime`. -/

structure DateTimeM where
  year : Nat
  month : Nat
  day : Nat
  hour : Nat
  minute : Nat
deriving Repr, DecidableEq

/-- Gregorian leap year, as validated by `datetime`. -/
def isLeapYear (y : Nat) : Bool :=
  y % 4 = 0 && (y % 100 ≠ 0 || y % 400 = 0)

/-- Days in a month, as validated by `datetime`. -/
def daysInMonth (y mo : Nat) : Nat :=
  if mo = 2 then (if isLeapYear y then 29 else 28)
  else if mo ∈ [4, 6, 9, 11] then 30
  else 31

/-- Numeric value of a digit character. -/
def digitVal (c : Char) : Nat :=
  c.toNat - 48

/-- Range validation performed by the `datetime` constructor (restricted
to the minute fields; the second field is validated by the callers that
parse one). -/
def validDT (y mo d h mi : Nat) : Prop :=
  1 ≤ mo ∧ mo ≤ 12 ∧ 1 ≤ d ∧ d ≤ daysInMonth y mo ∧ h ≤ 23 ∧ mi ≤ 59

instance (y mo d h mi : Nat) : Decidable (validDT y mo d h mi) := by
  unfold validDT
  infer_instance

/-- `datetime.strptime(s, "%Y-%m-%d %H:%M")` (the kickoff format). -/
def parseKickoff (s : String) : Option DateTimeM :=
  match s.data with
  | [y1, y2, y3, y4, '-', m1, m2, '-', d1, d2, ' ', h1, h2, ':', n1, n2] =>
    if (y1.isDigit ∧ y2.isDigit ∧ y3.isDigit ∧ y4.isDigit ∧ m1.isDigit ∧ m2.isDigit
        ∧ d1.isDigit ∧ d2.isDigit ∧ h1.isDigit ∧ h2.isDigit ∧ n1.isDigit ∧ n2.isDigit) then
      let y := ((digitVal y1 * 10 + digitVal y2) * 10 + digitVal y3) * 10 + digitVal y4
      let mo := digitVal m1 * 10 + digitVal m2
      let d := digitVal d1 * 10 + digitVal d2
      let h := digitVal h1 * 10 + digitVal h2
      let mi := digitVal n1 * 10 + digitVal n2
      if validDT y mo d h mi then some ⟨y, mo, d, h, mi⟩ else none
    else none
  | _ => none

/-- `datetime.strptime(s, "%Y-%m-%dT%H:%M:%SZ")` (OneFootball's raw
kickoff format); the second field is validated and then dropped, since
all later uses are at minute granularity. -/
def parseIsoUtcZ (s : String) : Option DateTimeM :=
  match s.data with
  | [y1, y2, y3, y4, '-', m1, m2, '-', d1, d2, 'T', h1, h2, ':', n1, n2, ':', s1, s2, 'Z'] =>
    if (y1.isDigit ∧ y2.isDigit ∧ y3.isDigit ∧ y4.isDigit ∧ m1.isDigit ∧ m2.isDigit
        ∧ d1.isDigit ∧ d2.isDigit ∧ h1.isDigit ∧ h2.isDigit ∧ n1.isDigit ∧ n2.isDigit
        ∧ s1.isDigit ∧ s2.isDigit) then
      let y := ((digitVal y1 * 10 + digitVal y2) * 10 + digitVal y3) * 10 + digitVal y4
      let mo := digitVal m1 * 10 + digitVal m2
      let d := digitVal d1 * 10 + digitVal d2
      let h := digitVal h1 * 10 + digitVal h2
      let mi := digitVal n1 * 10 + digitVal n2
      let sec := digitVal s1 * 10 + digitVal s2
      if validDT y mo d h mi ∧ sec ≤ 59 then some ⟨y, mo, d, h, mi⟩ else none
    else none
  | _ => none

/-- `datetime.strptime(s, "%Y-%m-%d %H:%M:%S")` (AllFootball's raw
`date_utc time_utc` format); the second field is validated and dropped. -/
def parseYmdHms (s : String) : Option DateTimeM :=
  match s.data with
  | [y1, y2, y3, y4, '-', m1, m2, '-', d1, d2, ' ', h1, h2, ':', n1, n2, ':', s1, s2] =>
    if (y1.isDigit ∧ y2.isDigit ∧ y3.isDigit ∧ y4.isDigit ∧ m1.isDigit ∧ m2.isDigit
        ∧ d1.isDigit ∧ d2.isDigit ∧ h1.isDigit ∧ h2.isDigit ∧ n1.isDigit ∧ n2.isDigit
        ∧ s1.isDigit ∧ s2.isDigit) then
      let y := ((digitVal y1 * 10 + digitVal y2) * 10 + digitVal y3) * 10 + digitVal y4
      let mo := digitVal m1 * 10 + digitVal m2
      let d := digitVal d1 * 10 + digitVal d2
      let h := digitVal h1 * 10 + digitVal h2
      let mi := digitVal n1 * 10 + digitVal n2
      let sec := digitVal s1 * 10 + digitVal s2
      if validDT y mo d h mi ∧ sec ≤ 59 then some ⟨y, mo, d, h, mi⟩ else none
    else none
  | _ => none

/-- Conversion from UTC to Africa/Nairobi: a fixed +3 hour offset, with
day/month/year rollover. -/
def addHours3 (dt : DateTimeM) : DateTimeM :=
  if dt.hour + 3 ≤ 23 then ⟨dt.year, dt.month, dt.day, dt.hour + 3, dt.minute⟩
  else
    let h := dt.hour + 3 - 24
    if dt.day + 1 ≤ daysInMonth dt.year dt.month then ⟨dt.year, dt.month, dt.day + 1, h, dt.minute⟩
    else if dt.month + 1 ≤ 12 then ⟨dt.year, dt.month + 1, 1, h, dt.minute⟩
    else ⟨dt.year + 1, 1, 1, h, dt.minute⟩

/-- Zero-padded two-digit rendering, as `strftime` produces. -/
def pad2 (n : Nat) : String :=
  if n < 10 then "0" ++ toString n else toString n

/-- Zero-padded four-digit rendering, as `strftime` produces. -/
def pad4 (n : Nat) : String :=
  if n < 10 then "000" ++ toString n
  else if n < 100 then "00" ++ toString n
  else if n < 1000 then "0" ++ toString n
  else toString n

/-- `strftime("%Y-%m-%d %H:%M")`. -/
def formatDT (dt : DateTimeM) : String :=
  pad4 dt.year ++ "-" ++ pad2 dt.month ++ "-" ++ pad2 dt.day ++ " "
    ++ pad2 dt.hour ++ ":" ++ pad2 dt.minute

/-- A total order key for a minute-granularity timestamp; strictly
monotone in the lexicographic field order as long as the fields satisfy
`validDT` (in particular `day ≤ 31`). -/
def encodeDT (dt : DateTimeM) : Nat :=
  (((dt.year * 12 + (dt.month - 1)) * 31 + (dt.day - 1)) * 24 + dt.hour) * 60 + dt.minute

/-- The key `datetime.max` (9999-12-31 23:59:59.999999) sorts to: it is
strictly later than every minute-granularity value `strptime` can
produce, whose largest is 9999-12-31 23:59(:00). -/
def datetimeMaxKey : Nat :=
  encodeDT ⟨9999, 12, 31, 23, 59⟩ + 1

/-! ## The uniform record shape -/

/-- The uniform record shape every fetcher produces (a Python dict in
the source; keys a given source does not supply read through the
defaults the merge's `.get` calls use). -/
structure MatchRecord where
  match_id : String := ""
  home : String
  away : String
  competition : String
  kickoff : String := "Unknown"
  home_logo : String := "No logo"
  away_logo : String := "No logo"
  home_score : String := "0"
  away_score : String := "0"
  channels : List String := []
deriving Repr, DecidableEq

/-- `kickoff_key` (`matches.py` lines 435-439): the parsed kickoff, or
`datetime.max` when `strptime` raises (e.g. on `"Unknown"`). -/
def kickoff_key (m : MatchRecord) : Nat :=
  match parseKickoff m.kickoff with
  | some dt => encodeDT dt
  | none => datetimeMaxKey

/-! ## Stable sorting (`merged.sort(key=kickoff_key)`)

Python's `list.sort` is a stable ascending sort by key.  A stable
ascending sort by key is extensionally unique, so it is embedded by a
stable insertion sort. -/

/-- Insert `a` into `l` before the first element whose key is not
smaller; when keys tie, `a` (the element that came earlier in the sort's
input) stays in front. -/
def orderedInsertKey (k : α → Nat) (a : α) : List α → List α
  | [] => [a]
  | b :: l => if k a ≤ k b then a :: b :: l else b :: orderedInsertKey k a l

/-- Stable ascending insertion sort by a `Nat` key. -/
def sortByKeyNat (k : α → Nat) : List α → List α
  | [] => []
  | a :: l => orderedInsertKey k a (sortByKeyNat k l)

/-! ## Per-record parsing loops of the fetchers -/

/-- The fields the OneFootball matchCards loop (lines 111-143) extracts
from one raw JSON match card.  Every extraction except the kickoff uses
`.get`-style defaults (the competition lookup has its own
`try`/`except`), so those fields are embedded as already-extracted
strings; the unguarded `datetime.strptime(m["kickoff"], ...)` call is
the per-record failure point and is embedded faithfully. -/
structure RawOneFootball where
  match_id : String
  home : String
  away : String
  competition : String
  kickoff : String
  home_logo : String
  away_logo : String
  home_score : String
  away_score : String
deriving Repr, DecidableEq

/-- The body of the OneFootball matchCards loop for one record: parse
the UTC kickoff, convert to UTC+3, render at minute granularity.
`none` when `strptime` raises. -/
def parseOneFootballRecord (r : RawOneFootball) : Option MatchRecord :=
  match parseIsoUtcZ r.kickoff with
  | none => none
  | some dt =>
    some ⟨r.match_id, r.home, r.away, r.competition, formatDT (addHours3 dt),
          r.home_logo, r.away_logo, r.home_score, r.away_score, []⟩

/-- The OneFootball record loop (lines 108-147): records are appended in
order; an exception raised while parsing one record's kickoff propagates
out of the loop to the function-level `except`, which logs and falls
through to `return matches` — the records accumulated so far. -/
def processOneFootballGo (acc : List MatchRecord) : List RawOneFootball → List MatchRecord
  | [] => acc
  | r :: rest =>
    match parseOneFootballRecord r with
    | none => acc
    | some m => processOneFootballGo (acc ++ [m]) rest

/-- The OneFootball record loop, from the empty accumulator. -/
def processOneFootball (raws : List RawOneFootball) : List MatchRecord :=
  processOneFootballGo [] raws

/-- The fields the AllFootball loop (lines 344-365) reads from one raw
match (all via `.get` with defaults). -/
structure RawAllFootball where
  date_utc : String
  time_utc : String
  team_A_name : String
  team_B_name : String
  competition_name : String
  team_A_logo : String
  team_B_logo : String
  fs_A : String
  fs_B : String
deriving Repr, DecidableEq

/-- The guarded body of the AllFootball loop for one record: parse the
UTC timestamp, convert to UTC+3, keep only matches on the current local
date (`today`, as a year-month-day triple).  `none` both when `strptime`
raises (the record-level `except ... continue`) and when the date filter
`continue`s. -/
def parseAllFootballRecord (today : Nat × Nat × Nat) (r : RawAllFootball) : Option MatchRecord :=
  match parseYmdHms (r.date_utc ++ " " ++ r.time_utc) with
  | none => none
  | some dt =>
    let g := addHours3 dt
    if (g.year, g.month, g.day) ≠ today then none
    else
      some ⟨"", r.team_A_name, r.team_B_name, r.competition_name, formatDT g,
            r.team_A_logo, r.team_B_logo, r.fs_A, r.fs_B, []⟩

/-- The AllFootball record loop (lines 344-365): each record is guarded
by its own `try`/`except ... continue`, so a failing record is skipped
and the loop continues with its siblings. -/
def processAllFootballGo (today : Nat × Nat × Nat) (acc : List MatchRecord) :
    List RawAllFootball → List MatchRecord
  | [] => acc
  | r :: rest =>
    match parseAllFootballRecord today r with
    | none => processAllFootballGo today acc rest
    | some m => processAllFootballGo today (acc ++ [m]) rest

/-- The AllFootball record loop, from the empty accumulator. -/
def processAllFootball (today : Nat × Nat × Nat) (raws : List RawAllFootball) : List MatchRecord :=
  processAllFootballGo today [] raws

/-- Lines 191-192 and 298-299: both the WherestheMatch and the DaddyLive
fetchers replace an empty channel list by the one-element sentinel list
`["Not specified"]` before the record is emitted. -/
def defaultChannels (channels : List String) : List String :=
  if channels.isEmpty then ["Not specified"] else channels

/-! ## Corroboration & Merge Engine (`merge_matches`, lines 372-440) -/

/-- The list comprehension
`[sm for sm in src if teams_match(om["home"], om["away"], sm["home"], sm["away"])]`
used for both `wtm_matches` and `af_matches`. -/
def corroborating (om : MatchRecord) (src : List MatchRecord) : List MatchRecord :=
  src.filter (fun sm => teams_match om.home om.away sm.home sm.away)

/-- The `for wm in wtm_matches: channels.extend(wm.get("channels", []))`
loop (lines 408-409). -/
def extendChannels (acc : List String) (ms : List MatchRecord) : List String :=
  ms.foldl (fun acc m => acc ++ m.channels) acc

/-- The `for dm in daddylive: if teams_match(...): channels.extend(...)`
loop (lines 410-412, 415-417, 420-422). -/
def extendDaddyliveChannels (om : MatchRecord) (acc : List String)
    (daddylive : List MatchRecord) : List String :=
  daddylive.foldl
    (fun acc dm => if teams_match om.home om.away dm.home dm.away then acc ++ dm.channels else acc)
    acc

/-- The channel deduplication loop (lines 426-431): `seen` is the set of
`(ch or "").strip().lower()` keys already kept (embedded as a list,
membership-equivalent); a label is kept when its key is non-empty and
unseen.  (The `ch or ""` guard is vacuous here: channels are strings.) -/
def dedupChannelsGo (seen : List String) : List String → List String
  | [] => []
  | ch :: rest =>
    let key := strLower (strStrip ch)
    if key ≠ "" ∧ key ∉ seen then ch :: dedupChannelsGo (key :: seen) rest
    else dedupChannelsGo seen rest

/-- The channel deduplication of `merge_matches` (lines 426-431). -/
def dedupChannels (channels : List String) : List String :=
  dedupChannelsGo [] channels

/-- Pass 1 (lines 384-396): the `allowed_tournaments` set — the
lower-cased competitions of the unbanned authoritative fixtures that
have at least one corroborating WherestheMatch or AllFootball fixture
(embedded as a list, membership-equivalent to the Python set). -/
def allowed_tournaments (banned : List String)
    (onefootball wtm allfootball : List MatchRecord) : List String :=
  (onefootball.filter (fun om =>
      !(is_banned_match banned om.home om.away om.competition)
      && (!(corroborating om wtm).isEmpty || !(corroborating om allfootball).isEmpty))).map
    (fun om => strLower om.competition)

/-- One iteration of Pass 2 (lines 399-433) for the authoritative
fixture `om`: `none` embeds `continue` (the fixture is discarded),
`some` embeds `merged.append({**om, "channels": clean_channels})`. -/
def merge_one (banned allowed : List String)
    (wtm daddylive allfootball : List MatchRecord) (om : MatchRecord) : Option MatchRecord :=
  if is_banned_match banned om.home om.away om.competition then none
  else
    let wtm_matches := corroborating om wtm
    let af_matches := corroborating om allfootball
    if !wtm_matches.isEmpty then
      some { om with
             channels := dedupChannels
               (extendDaddyliveChannels om (extendChannels [] wtm_matches) daddylive) }
    else if !af_matches.isEmpty then
      some { om with channels := dedupChannels (extendDaddyliveChannels om [] daddylive) }
    else if allowed.contains (strLower om.competition) then
      some { om with channels := dedupChannels (extendDaddyliveChannels om [] daddylive) }
    else none

/-- Pass 2 (lines 399-433): the merged list before sorting, in the
authoritative source's original order. -/
def merge_pass2 (banned allowed : List String)
    (onefootball wtm daddylive allfootball : List MatchRecord) : List MatchRecord :=
  onefootball.filterMap (merge_one banned allowed wtm daddylive allfootball)

/-- `merge_matches` (lines 372-440), from the four fetched lists and the
loaded ban set: Pass 1 builds `allowed_tournaments`, Pass 2 builds the
merged list reading it, and the result is stable-sorted by
`kickoff_key`. -/
def merge_matches (banned : List String)
    (onefootball wtm daddylive allfootball : List MatchRecord) : List MatchRecord :=
  let allowed := allowed_tournaments banned onefootball wtm allfootball
  sortByKeyNat kickoff_key (merge_pass2 banned allowed onefootball wtm daddylive allfootball)

/-! ## Definitions written from the spec's words

The following definitions restate, in the spec's own vocabulary, the
behaviours the claims describe; the claim theorems compare them with the
definitions embedded from the source. -/

/-- Written from the spec (§4.4): the channels contributed by the
corroborating broadcast-schedule (WherestheMatch) fixtures, in order. -/
def spec_broadcast_channels (om : MatchRecord) (wtm : List MatchRecord) : List String :=
  ((wtm.filter (fun wm => teams_match om.home om.away wm.home wm.away)).map
    MatchRecord.channels).flatten

/-- Written from the spec (§4.4): the channels of every streaming-source
(DaddyLive) fixture matching the same teams, in order. -/
def spec_streaming_channels (om : MatchRecord) (daddylive : List MatchRecord) : List String :=
  ((daddylive.filter (fun dm => teams_match om.home om.away dm.home dm.away)).map
    MatchRecord.channels).flatten

/-- Written from the spec (§4.4 Pass 2): the collected channels of an
unbanned authoritative fixture, or `none` when the fixture is discarded —
broadcast corroboration collects broadcast channels followed by matching
streaming channels; secondary-source corroboration or an allow-listed
competition collects matching streaming channels only; otherwise the
fixture is dropped. -/
def spec_collected_channels (om : MatchRecord) (wtm daddylive allfootball : List MatchRecord)
    (allowed : List String) : Option (List String) :=
  if ∃ wm ∈ wtm, teams_match om.home om.away wm.home wm.away = true then
    some (spec_broadcast_channels om wtm ++ spec_streaming_channels om daddylive)
  else if ∃ am ∈ allfootball, teams_match om.home om.away am.home am.away = true then
    some (spec_streaming_channels om daddylive)
  else if strLower om.competition ∈ allowed then
    some (spec_streaming_channels om daddylive)
  else none

/-- The deduplication key of a channel label: `(ch or "").strip().lower()`. -/
def chanKey (ch : String) : String :=
  strLower (strStrip ch)

/-- Written from the spec (§4.4) and claim C8: keep a label iff its key
is non-empty and no earlier label of the list has the same key; `left`
holds the labels before the current one. -/
def spec_dedupGo (left : List String) : List String → List String
  | [] => []
  | ch :: rest =>
    if chanKey ch ≠ "" ∧ (∀ p ∈ left, chanKey p ≠ chanKey ch)
    then ch :: spec_dedupGo (left ++ [ch]) rest
    else spec_dedupGo (left ++ [ch]) rest

/-- Written from the spec (§4.4) and claim C8: the channel
deduplication, characterized positionally. -/
def spec_dedup (channels : List String) : List String :=
  spec_dedupGo [] channels

/-- Erase the only field the streaming source may influence. -/
def dropChannels (m : MatchRecord) : MatchRecord :=
  { m with channels := [] }

/-! ## Concrete records used by counterexamples and witnesses -/

/-- An authoritative fixture (all fields well-formed). -/
def cex3_om : MatchRecord :=
  { match_id := "m1", home := "Arsenal", away := "Chelsea",
    competition := "Premier League", kickoff := "2024-05-01 18:00",
    home_logo := "hl", away_logo := "al", home_score := "0", away_score := "0",
    channels := [] }

/-- A broadcast-schedule fixture for the same match whose scrape found
no channel images, exactly as lines 188-192 emit it. -/
def cex3_wm : MatchRecord :=
  { home := "Arsenal", away := "Chelsea", competition := "Premier League",
    kickoff := "2024-05-01 18:00", channels := defaultChannels [] }

/-- A well-formed raw OneFootball match card. -/
def cex5_good1 : RawOneFootball :=
  ⟨"id1", "Arsenal", "Chelsea", "Premier League", "2024-05-01T18:00:00Z",
   "hl1", "al1", "0", "0"⟩

/-- A raw OneFootball match card with a malformed kickoff timestamp. -/
def cex5_bad : RawOneFootball :=
  ⟨"id2", "Leeds", "Luton", "Championship", "not-a-timestamp",
   "hl2", "al2", "0", "0"⟩

/-- A second well-formed raw OneFootball match card, sibling of the bad one. -/
def cex5_good2 : RawOneFootball :=
  ⟨"id3", "Fulham", "Brentford", "Premier League", "2024-05-01T19:00:00Z",
   "hl3", "al3", "0", "0"⟩

/-- Fixture with kickoff 20:00 (spec §8 sorting scenario). -/
def c7_r20 : MatchRecord :=
  { home := "A", away := "B", competition := "C", kickoff := "2024-05-01 20:00" }

/-- Fixture with kickoff "Unknown" (spec §8 sorting scenario). -/
def c7_rUnknown : MatchRecord :=
  { home := "D", away := "E", competition := "F", kickoff := "Unknown" }

/-- Fixture with kickoff 09:00 (spec §8 sorting scenario). -/
def c7_r09 : MatchRecord :=
  { home := "G", away := "H", competition := "I", kickoff := "2024-05-01 09:00" }


/-! ## Helper lemmas: the fetch loops -/

theorem processOneFootballGo_acc (raws : List RawOneFootball) :
    ∀ acc, processOneFootballGo acc raws = acc ++ processOneFootballGo [] raws := by
  induction raws with
  | nil => intro acc; simp [processOneFootballGo]
  | cons r rest ih =>
    intro acc
    cases hp : parseOneFootballRecord r with
    | none => simp [processOneFootballGo, hp]
    | some m =>
      simp only [processOneFootballGo, hp]
      rw [ih (acc ++ [m]), List.nil_append, ih [m]]
      simp

theorem processOneFootball_eq (raws : List RawOneFootball) :
    processOneFootball raws
      = (raws.takeWhile (fun r => (parseOneFootballRecord r).isSome)).filterMap
          parseOneFootballRecord := by
  induction raws with
  | nil => rfl
  | cons r rest ih =>
    cases hp : parseOneFootballRecord r with
    | none =>
      simp [processOneFootball, processOneFootballGo, hp, List.takeWhile_cons]
    | some m =>
      simp only [processOneFootball, processOneFootballGo, hp]
      rw [processOneFootballGo_acc]
      simp [List.takeWhile_cons, hp, List.filterMap_cons]
      exact ih

theorem processAllFootballGo_acc (today : Nat × Nat × Nat) (raws : List RawAllFootball) :
    ∀ acc, processAllFootballGo today acc raws = acc ++ processAllFootballGo today [] raws := by
  induction raws with
  | nil => intro acc; simp [processAllFootballGo]
  | cons r rest ih =>
    intro acc
    cases hp : parseAllFootballRecord today r with
    | none => simp [processAllFootballGo, hp]; exact ih acc
    | some m =>
      simp only [processAllFootballGo, hp]
      rw [ih (acc ++ [m]), List.nil_append, ih [m]]
      simp

theorem processAllFootball_eq (today : Nat × Nat × Nat) (raws : List RawAllFootball) :
    processAllFootball today raws = raws.filterMap (parseAllFootballRecord today) := by
  induction raws with
  | nil => rfl
  | cons r rest ih =>
    cases hp : parseAllFootballRecord today r with
    | none =>
      simp only [processAllFootball, processAllFootballGo, hp] at ih ⊢
      simp [List.filterMap_cons, hp, ih]
    | some m =>
      simp only [processAllFootball, processAllFootballGo, hp]
      rw [processAllFootballGo_acc]
      simp [List.filterMap_cons, hp]
      exact ih

/-! ## Helper lemmas: channel collection -/

theorem extendChannels_eq (ms : List MatchRecord) :
    ∀ acc, extendChannels acc ms = acc ++ (ms.map MatchRecord.channels).flatten := by
  induction ms with
  | nil => intro acc; simp [extendChannels]
  | cons m rest ih =>
    intro acc
    simp only [extendChannels, List.foldl_cons] at ih ⊢
    rw [ih]
    simp

theorem extendDaddyliveChannels_eq (om : MatchRecord) (daddylive : List MatchRecord) :
    ∀ acc, extendDaddyliveChannels om acc daddylive
      = acc ++ ((daddylive.filter
          (fun dm => teams_match om.home om.away dm.home dm.away)).map
            MatchRecord.channels).flatten := by
  induction daddylive with
  | nil => intro acc; simp [extendDaddyliveChannels]
  | cons dm rest ih =>
    intro acc
    simp only [extendDaddyliveChannels, List.foldl_cons] at ih ⊢
    cases ht : teams_match om.home om.away dm.home dm.away with
    | true => rw [ih]; simp [List.filter_cons, ht]
    | false => rw [ih]; simp [List.filter_cons, ht]

/-! ## Helper lemmas: the stable sort -/

theorem orderedInsertKey_perm {α : Type} (k : α → Nat) (a : α) (l : List α) :
    (orderedInsertKey k a l).Perm (a :: l) := by
  induction l with
  | nil => simp [orderedInsertKey]
  | cons b rest ih =>
    by_cases h : k a ≤ k b
    · simp [orderedInsertKey, h]
    · simp only [orderedInsertKey, if_neg h]
      exact (ih.cons b).trans (List.Perm.swap a b rest)

theorem sortByKeyNat_perm {α : Type} (k : α → Nat) (l : List α) :
    (sortByKeyNat k l).Perm l := by
  induction l with
  | nil => simp [sortByKeyNat]
  | cons a rest ih =>
    exact (orderedInsertKey_perm k a (sortByKeyNat k rest)).trans (ih.cons a)

theorem mem_sortByKeyNat {α : Type} (k : α → Nat) (l : List α) (a : α) :
    a ∈ sortByKeyNat k l ↔ a ∈ l :=
  (sortByKeyNat_perm k l).mem_iff

theorem pairwise_orderedInsertKey {α : Type} (k : α → Nat) (a : α) (l : List α)
    (hl : List.Pairwise (fun x y => k x ≤ k y) l) :
    List.Pairwise (fun x y => k x ≤ k y) (orderedInsertKey k a l) := by
  induction l with
  | nil => simp [orderedInsertKey]
  | cons b rest ih =>
    rcases List.pairwise_cons.mp hl with ⟨hb, hrest⟩
    by_cases h : k a ≤ k b
    · simp only [orderedInsertKey, if_pos h]
      refine List.pairwise_cons.mpr ⟨?_, hl⟩
      intro y hy
      rcases List.mem_cons.mp hy with hy | hy
      · subst hy; exact h
      · exact le_trans h (hb y hy)
    · simp only [orderedInsertKey, if_neg h]
      refine List.pairwise_cons.mpr ⟨?_, ih hrest⟩
      intro y hy
      rcases List.mem_cons.mp ((orderedInsertKey_perm k a rest).mem_iff.mp hy) with hy | hy
      · subst hy; omega
      · exact hb y hy

theorem pairwise_sortByKeyNat {α : Type} (k : α → Nat) (l : List α) :
    List.Pairwise (fun x y => k x ≤ k y) (sortByKeyNat k l) := by
  induction l with
  | nil => simp [sortByKeyNat]
  | cons a rest ih => exact pairwise_orderedInsertKey k a (sortByKeyNat k rest) ih

theorem filter_orderedInsertKey {α : Type} (k : α → Nat) (c : Nat) (a : α) (l : List α) :
    (orderedInsertKey k a l).filter (fun x => decide (k x = c))
      = if k a = c then a :: l.filter (fun x => decide (k x = c))
        else l.filter (fun x => decide (k x = c)) := by
  induction l with
  | nil => by_cases h : k a = c <;> simp [orderedInsertKey, List.filter_cons, h]
  | cons b rest ih =>
    simp only [orderedInsertKey]
    by_cases hab : k a ≤ k b
    · rw [if_pos hab]
      by_cases ha : k a = c <;> simp [List.filter_cons, ha]
    · rw [if_neg hab]
      by_cases hb : k b = c
      · have ha : ¬ k a = c := by omega
        simp [List.filter_cons, hb, ih, ha]
      · simp [List.filter_cons, hb, ih]

theorem filter_sortByKeyNat {α : Type} (k : α → Nat) (c : Nat) (l : List α) :
    (sortByKeyNat k l).filter (fun x => decide (k x = c))
      = l.filter (fun x => decide (k x = c)) := by
  induction l with
  | nil => simp [sortByKeyNat]
  | cons a rest ih =>
    simp only [sortByKeyNat, filter_orderedInsertKey, ih, List.filter_cons]
    by_cases h : k a = c <;> simp [h]

theorem map_orderedInsertKey {α β : Type} (k : α → Nat) (k' : β → Nat) (f : α → β)
    (hk : ∀ a, k' (f a) = k a) (a : α) (l : List α) :
    (orderedInsertKey k a l).map f = orderedInsertKey k' (f a) (l.map f) := by
  induction l with
  | nil => simp [orderedInsertKey]
  | cons b rest ih =>
    by_cases h : k a ≤ k b
    · simp [orderedInsertKey, h, hk]
    · have h' : ¬ k' (f a) ≤ k' (f b) := by rw [hk, hk]; exact h
      simp [orderedInsertKey, if_neg h, if_neg h', ih]

theorem map_sortByKeyNat {α β : Type} (k : α → Nat) (k' : β → Nat) (f : α → β)
    (hk : ∀ a, k' (f a) = k a) (l : List α) :
    (sortByKeyNat k l).map f = sortByKeyNat k' (l.map f) := by
  induction l with
  | nil => simp [sortByKeyNat]
  | cons a rest ih =>
    simp only [sortByKeyNat, List.map_cons]
    rw [map_orderedInsertKey k k' f hk, ih]

theorem sorted_partition {α : Type} (k : α → Nat) (M : Nat) (l : List α)
    (hs : List.Pairwise (fun x y => k x ≤ k y) l) (hb : ∀ x ∈ l, k x ≤ M) :
    l = l.filter (fun x => !(decide (k x = M))) ++ l.filter (fun x => decide (k x = M)) := by
  induction l with
  | nil => simp
  | cons a rest ih =>
    rcases List.pairwise_cons.mp hs with ⟨ha, hrest⟩
    by_cases h : k a = M
    · have hall : ∀ x ∈ rest, k x = M := by
        intro x hx
        have hx1 := ha x hx
        have hx2 := hb x (List.mem_cons_of_mem a hx)
        omega
      have h1 : rest.filter (fun x => !(decide (k x = M))) = [] := by
        apply List.filter_eq_nil_iff.mpr
        intro x hx
        simp [hall x hx]
      have h2 : rest.filter (fun x => decide (k x = M)) = rest := by
        apply List.filter_eq_self.mpr
        intro x hx
        simp [hall x hx]
      simp [List.filter_cons, h, h1, h2]
    · have ihh := ih hrest (fun x hx => hb x (List.mem_cons_of_mem a hx))
      simp only [List.filter_cons]
      simp [h]
      conv =>
        lhs
        rw [ihh]

/-! ## Helper lemmas: substring test, deduplication, kickoff keys -/

theorem containsSub_iff (needle : List Char) :
    ∀ hay, containsSub needle hay = true ↔ needle <:+: hay := by
  intro hay
  induction hay with
  | nil =>
    simp [containsSub, List.isEmpty_iff]
  | cons c cs ih =>
    simp [containsSub, List.infix_cons_iff, ih, List.isPrefixOf_iff_prefix]

theorem mem_dedupChannelsGo (l : List String) :
    ∀ seen ch, ch ∈ dedupChannelsGo seen l → ch ∈ l := by
  induction l with
  | nil => intro seen ch h; simp [dedupChannelsGo] at h
  | cons c rest ih =>
    intro seen ch h
    simp only [dedupChannelsGo] at h
    split at h
    · rcases List.mem_cons.mp h with h | h
      · exact h ▸ List.mem_cons_self c rest
      · exact List.mem_cons_of_mem c (ih _ ch h)
    · exact List.mem_cons_of_mem c (ih _ ch h)

theorem mem_dedupChannels (l : List String) (ch : String) (h : ch ∈ dedupChannels l) :
    ch ∈ l :=
  mem_dedupChannelsGo l [] ch h

theorem digitVal_le_9 (c : Char) (h : c.isDigit = true) : digitVal c ≤ 9 := by
  unfold Char.isDigit at h
  simp only [Bool.and_eq_true, decide_eq_true_eq] at h
  rcases h with ⟨h1, h2⟩
  have g1 : 48 ≤ c.toNat := h1
  have g2 : c.toNat ≤ 57 := h2
  unfold digitVal
  omega

theorem daysInMonth_le (y mo : Nat) : daysInMonth y mo ≤ 31 := by
  unfold daysInMonth
  split
  · split <;> omega
  · split <;> omega

theorem encodeDT_lt_max (y mo d h mi : Nat) (hy : y ≤ 9999)
    (hv : validDT y mo d h mi) : encodeDT ⟨y, mo, d, h, mi⟩ < datetimeMaxKey := by
  rcases hv with ⟨h1, h2, h3, h4, h5, h6⟩
  have hd : d ≤ 31 := le_trans h4 (daysInMonth_le y mo)
  unfold encodeDT datetimeMaxKey encodeDT
  simp only
  have key : (((y * 12 + (mo - 1)) * 31 + (d - 1)) * 24 + h) * 60 + mi
      ≤ (((9999 * 12 + 11) * 31 + 30) * 24 + 23) * 60 + 59 := by
    have e1 : mo - 1 ≤ 11 := by omega
    have e2 : d - 1 ≤ 30 := by omega
    have e3 : y * 12 + (mo - 1) ≤ 9999 * 12 + 11 := by omega
    have e4 : (y * 12 + (mo - 1)) * 31 + (d - 1) ≤ (9999 * 12 + 11) * 31 + 30 := by
      have := Nat.mul_le_mul_right 31 e3
      omega
    have e5 : ((y * 12 + (mo - 1)) * 31 + (d - 1)) * 24 + h
        ≤ ((9999 * 12 + 11) * 31 + 30) * 24 + 23 := by
      have := Nat.mul_le_mul_right 24 e4
      omega
    have := Nat.mul_le_mul_right 60 e5
    omega
  omega

theorem parseKickoff_lt_max (s : String) (dt : DateTimeM)
    (h : parseKickoff s = some dt) : encodeDT dt < datetimeMaxKey := by
  unfold parseKickoff at h
  split at h
  case h_2 => exact absurd h (by simp)
  case h_1 y1 y2 y3 y4 m1 m2 d1 d2 h1 h2 n1 n2 heq =>
    simp only at h
    split at h
    case isFalse => exact absurd h (by simp)
    case isTrue hdig =>
      split at h
      case isFalse => exact absurd h (by simp)
      case isTrue hv =>
        have hdt := Option.some.inj h
        have hy : ((digitVal y1 * 10 + digitVal y2) * 10 + digitVal y3) * 10 + digitVal y4
            ≤ 9999 := by
          have g1 := digitVal_le_9 y1 hdig.1
          have g2 := digitVal_le_9 y2 hdig.2.1
          have g3 := digitVal_le_9 y3 hdig.2.2.1
          have g4 := digitVal_le_9 y4 hdig.2.2.2.1
          omega
        rw [← hdt]
        exact encodeDT_lt_max _ _ _ _ _ hy hv

theorem kickoff_key_le_max (m : MatchRecord) : kickoff_key m ≤ datetimeMaxKey := by
  unfold kickoff_key
  cases hp : parseKickoff m.kickoff with
  | none => simp
  | some dt => exact le_of_lt (parseKickoff_lt_max _ _ hp)

theorem kickoff_key_eq_max_iff (m : MatchRecord) :
    kickoff_key m = datetimeMaxKey ↔ (parseKickoff m.kickoff).isNone = true := by
  unfold kickoff_key
  cases hp : parseKickoff m.kickoff with
  | none => simp
  | some dt =>
    simp only [Option.isNone_some]
    constructor
    · intro he
      exact absurd he (Nat.ne_of_lt (parseKickoff_lt_max _ _ hp))
    · intro he
      exact absurd he (by simp)

/-! ## Helper lemmas: the normalizer pipeline

`normalize_team_name` output consists of space-joined tokens of
lower-case ASCII letters; the lemmas below show each pipeline stage is
the identity on such strings. -/

theorem az_toLower (c : Char) (h1 : 97 ≤ c.toNat) (h2 : c.toNat ≤ 122) :
    Char.toLower c = c := by
  unfold Char.toLower
  have h : ¬ (c.toNat ≥ 65 ∧ c.toNat ≤ 90) := by omega
  simp [h]

theorem az_isWs (c : Char) (h1 : 97 ≤ c.toNat) : c.isWhitespace = false := by
  unfold Char.isWhitespace
  have h32 : ¬ (c = ' ') := by intro he; subst he; simp at h1
  have h9 : ¬ (c = '\t') := by intro he; subst he; simp at h1
  have h13 : ¬ (c = '\r') := by intro he; subst he; simp at h1
  have h10 : ¬ (c = '\n') := by intro he; subst he; simp at h1
  simp [h32, h9, h13, h10]

theorem az_subChar (c : Char) (h1 : 97 ≤ c.toNat) (h2 : c.toNat ≤ 122) :
    subChar c = c := by
  unfold subChar
  have ha : 'a' ≤ c := by rw [Char.le_def]; exact h1
  have hz : c ≤ 'z' := by rw [Char.le_def]; exact h2
  simp [ha, hz]

theorem lt128_nfkdAscii (c : Char) (h : c.toNat < 128) : nfkdAscii c = [c] := by
  unfold nfkdAscii
  rw [if_pos h]

theorem subChar_range (c : Char) :
    (97 ≤ (subChar c).toNat ∧ (subChar c).toNat ≤ 122) ∨ subChar c = ' ' := by
  unfold subChar
  split
  case isTrue h =>
    rcases h with ⟨ha, hz⟩ | he
    · left
      rw [Char.le_def] at ha hz
      exact ⟨ha, hz⟩
    · right; exact he
  case isFalse h => right; rfl

theorem flatten_map_eq_self {α : Type} (f : α → List α) (l : List α)
    (h : ∀ c ∈ l, f c = [c]) : (l.map f).flatten = l := by
  induction l with
  | nil => simp
  | cons c rest ih =>
    simp only [List.map_cons, List.flatten_cons, h c (List.mem_cons_self c rest)]
    rw [ih (fun x hx => h x (List.mem_cons_of_mem c hx))]
    rfl

theorem mem_collapseWsGo (l : List Char) :
    ∀ b c, c ∈ collapseWsGo b l → c = ' ' ∨ c ∈ l := by
  induction l with
  | nil => intro b c h; simp [collapseWsGo] at h
  | cons x xs ih =>
    intro b c h
    simp only [collapseWsGo] at h
    by_cases hw : x.isWhitespace
    · rw [if_pos hw] at h
      by_cases hb : b
      · rw [if_pos hb] at h
        rcases ih true c h with h | h
        · exact Or.inl h
        · exact Or.inr (List.mem_cons_of_mem x h)
      · rw [if_neg hb] at h
        rcases List.mem_cons.mp h with h | h
        · exact Or.inl h
        · rcases ih true c h with h | h
          · exact Or.inl h
          · exact Or.inr (List.mem_cons_of_mem x h)
    · rw [if_neg hw] at h
      rcases List.mem_cons.mp h with h | h
      · exact Or.inr (h ▸ List.mem_cons_self x xs)
      · rcases ih false c h with h | h
        · exact Or.inl h
        · exact Or.inr (List.mem_cons_of_mem x h)

theorem mem_pyStripList (l : List Char) (c : Char) (h : c ∈ pyStripList l) : c ∈ l := by
  unfold pyStripList at h
  rw [List.mem_reverse] at h
  have h2 := (List.dropWhile_sublist Char.isWhitespace).mem h
  rw [List.mem_reverse] at h2
  exact (List.dropWhile_sublist Char.isWhitespace).mem h2

theorem mem_joinSpace (toks : List (List Char)) :
    ∀ c, c ∈ joinSpace toks → (∃ w ∈ toks, c ∈ w) ∨ c = ' ' := by
  induction toks with
  | nil => intro c h; simp [joinSpace] at h
  | cons w rest ih =>
    intro c h
    cases rest with
    | nil =>
      simp only [joinSpace] at h
      exact Or.inl ⟨w, List.mem_cons_self w [], h⟩
    | cons w2 rest2 =>
      simp only [joinSpace] at h
      rcases List.mem_append.mp h with h | h
      · exact Or.inl ⟨w, List.mem_cons_self w _, h⟩
      · rcases List.mem_cons.mp h with h | h
        · exact Or.inr h
        · rcases ih c h with ⟨w', hw', hc⟩ | h
          · exact Or.inl ⟨w', List.mem_cons_of_mem w hw', hc⟩
          · exact Or.inr h

/-- A word list is `good` when each word is non-empty, consists of
lower-case ASCII letters, and is not a stopword — the invariant of
`normalize_team_name`'s output tokens. -/
def goodToks (toks : List (List Char)) : Prop :=
  ∀ w ∈ toks, w ≠ []
    ∧ (∀ c ∈ w, (97 ≤ c.toNat ∧ c.toNat ≤ 122) ∧ c.isWhitespace = false)
    ∧ stopwords.contains w = false

theorem collapse_word (w : List Char) (hw : ∀ c ∈ w, c.isWhitespace = false) :
    ∀ b l, collapseWsGo b (w ++ l) = w ++ collapseWsGo (if w.isEmpty then b else false) l := by
  induction w with
  | nil => intro b l; simp
  | cons c cs ih =>
    intro b l
    have hc := hw c (List.mem_cons_self c cs)
    simp only [List.cons_append, collapseWsGo, hc, Bool.false_eq_true, if_false,
      List.append_eq]
    rw [ih (fun x hx => hw x (List.mem_cons_of_mem c hx)) false l]
    simp [List.isEmpty_cons, ite_self]

theorem collapse_joinSpace (toks : List (List Char))
    (h : ∀ w ∈ toks, w ≠ [] ∧ ∀ c ∈ w, c.isWhitespace = false) :
    ∀ b, collapseWsGo b (joinSpace toks) = joinSpace toks := by
  induction toks with
  | nil => intro b; simp [joinSpace, collapseWsGo]
  | cons w rest ih =>
    intro b
    rcases h w (List.mem_cons_self w rest) with ⟨hne, hnws⟩
    have hemp : w.isEmpty = false := by
      cases w with
      | nil => exact absurd rfl hne
      | cons a as => simp
    cases rest with
    | nil =>
      simp only [joinSpace]
      have hcw := collapse_word w hnws b []
      simp only [List.append_nil, hemp] at hcw
      simpa [collapseWsGo] using hcw
    | cons w2 rest2 =>
      simp only [joinSpace]
      rw [collapse_word w hnws b (' ' :: joinSpace (w2 :: rest2))]
      have hrec := ih (fun x hx => h x (List.mem_cons_of_mem w hx)) true
      simp [hemp, collapseWsGo, hrec]

theorem joinSpace_rev (toks : List (List Char))
    (h : ∀ w ∈ toks, w ≠ [] ∧ ∀ c ∈ w, c.isWhitespace = false) (hne : toks ≠ []) :
    ∃ c t, (joinSpace toks).reverse = c :: t ∧ c.isWhitespace = false := by
  induction toks with
  | nil => exact absurd rfl hne
  | cons w rest ih =>
    rcases h w (List.mem_cons_self w rest) with ⟨hwne, hnws⟩
    cases rest with
    | nil =>
      cases hrev : w.reverse with
      | nil => exact absurd (List.reverse_eq_nil_iff.mp hrev) hwne
      | cons c t =>
        refine ⟨c, t, hrev, hnws c ?_⟩
        have : c ∈ w.reverse := by rw [hrev]; exact List.mem_cons_self c t
        exact List.mem_reverse.mp this
    | cons w2 rest2 =>
      obtain ⟨c, t, hrev, hc⟩ :=
        ih (fun x hx => h x (List.mem_cons_of_mem w hx)) (by simp)
      refine ⟨c, t ++ ' ' :: w.reverse, ?_, hc⟩
      simp only [joinSpace, List.reverse_append, List.reverse_cons]
      rw [hrev]
      simp

theorem strip_joinSpace (toks : List (List Char))
    (h : ∀ w ∈ toks, w ≠ [] ∧ ∀ c ∈ w, c.isWhitespace = false) :
    pyStripList (joinSpace toks) = joinSpace toks := by
  cases toks with
  | nil => rfl
  | cons w rest =>
    rcases h w (List.mem_cons_self w rest) with ⟨hwne, hnws⟩
    cases w with
    | nil => exact absurd rfl hwne
    | cons c w' =>
      have hc : c.isWhitespace = false := hnws c (List.mem_cons_self c w')
      have hhead : ∃ t, joinSpace ((c :: w') :: rest) = c :: t := by
        cases rest with
        | nil => exact ⟨w', rfl⟩
        | cons w2 rest2 => exact ⟨w' ++ ' ' :: joinSpace (w2 :: rest2), rfl⟩
      obtain ⟨t, ht⟩ := hhead
      obtain ⟨c2, t2, hrev, hc2⟩ := joinSpace_rev ((c :: w') :: rest) h (by simp)
      unfold pyStripList
      rw [ht, List.dropWhile_cons, if_neg (by simp [hc]), ← ht]
      rw [hrev, List.dropWhile_cons, if_neg (by simp [hc2]), ← hrev, List.reverse_reverse]

theorem pySplitGo_word (w : List Char) (hw : ∀ c ∈ w, c.isWhitespace = false) :
    ∀ cur l, pySplitGo cur (w ++ l) = pySplitGo (w.reverse ++ cur) l := by
  induction w with
  | nil => intro cur l; simp
  | cons c cs ih =>
    intro cur l
    have hc := hw c (List.mem_cons_self c cs)
    simp only [List.cons_append, pySplitGo, hc, Bool.false_eq_true, if_false,
      List.append_eq]
    rw [ih (fun x hx => hw x (List.mem_cons_of_mem c hx)) (c :: cur) l]
    simp

theorem split_joinSpace (toks : List (List Char))
    (h : ∀ w ∈ toks, w ≠ [] ∧ ∀ c ∈ w, c.isWhitespace = false) :
    pySplit (joinSpace toks) = toks := by
  induction toks with
  | nil => rfl
  | cons w rest ih =>
    rcases h w (List.mem_cons_self w rest) with ⟨hwne, hnws⟩
    have hemp : w.reverse.isEmpty = false := by
      cases hrev : w.reverse with
      | nil => exact absurd (List.reverse_eq_nil_iff.mp hrev) hwne
      | cons a as => simp
    cases rest with
    | nil =>
      show pySplitGo [] (joinSpace [w]) = [w]
      have : joinSpace [w] = w ++ [] := by simp [joinSpace]
      rw [this, pySplitGo_word w hnws [] []]
      simp only [List.append_nil, pySplitGo, hemp, Bool.false_eq_true, if_false,
        List.reverse_reverse]
    | cons w2 rest2 =>
      show pySplitGo [] (joinSpace (w :: w2 :: rest2)) = w :: w2 :: rest2
      have hj : joinSpace (w :: w2 :: rest2) = w ++ ' ' :: joinSpace (w2 :: rest2) := rfl
      rw [hj, pySplitGo_word w hnws [] (' ' :: joinSpace (w2 :: rest2))]
      have hsp : (' ' : Char).isWhitespace = true := by decide
      simp only [List.append_nil, pySplitGo, hsp, if_true, hemp, Bool.false_eq_true,
        if_false, List.reverse_reverse]
      rw [show pySplitGo ([] : List Char) (joinSpace (w2 :: rest2))
            = pySplit (joinSpace (w2 :: rest2)) from rfl]
      rw [ih (fun x hx => h x (List.mem_cons_of_mem w hx))]

theorem pySplitGo_sound (Q : Char → Prop) :
    ∀ l cur, (∀ c ∈ cur, Q c ∧ c.isWhitespace = false)
      → (∀ c ∈ l, c.isWhitespace = true ∨ Q c)
      → ∀ w ∈ pySplitGo cur l, w ≠ [] ∧ ∀ c ∈ w, Q c ∧ c.isWhitespace = false := by
  intro l
  induction l with
  | nil =>
    intro cur hcur _ w hw
    simp only [pySplitGo] at hw
    cases hc : cur.isEmpty with
    | true => rw [hc] at hw; simp at hw
    | false =>
      rw [hc] at hw
      simp only [Bool.false_eq_true, if_false] at hw
      have hw' := List.mem_singleton.mp hw
      subst hw'
      constructor
      · intro habs
        rw [List.reverse_eq_nil_iff.mp habs] at hc
        simp at hc
      · intro c hcw
        exact hcur c (List.mem_reverse.mp hcw)
  | cons x xs ih =>
    intro cur hcur hl w hw
    simp only [pySplitGo] at hw
    by_cases hx : x.isWhitespace
    · rw [if_pos hx] at hw
      cases hc : cur.isEmpty with
      | true =>
        rw [hc] at hw
        simp only [if_true] at hw
        exact ih [] (by simp) (fun c hcx => hl c (List.mem_cons_of_mem x hcx)) w hw
      | false =>
        rw [hc] at hw
        simp only [Bool.false_eq_true, if_false] at hw
        rcases List.mem_cons.mp hw with hw | hw
        · subst hw
          constructor
          · intro habs
            rw [List.reverse_eq_nil_iff.mp habs] at hc
            simp at hc
          · intro c hcw
            exact hcur c (List.mem_reverse.mp hcw)
        · exact ih [] (by simp) (fun c hcx => hl c (List.mem_cons_of_mem x hcx)) w hw
    · rw [if_neg hx] at hw
      have hq : Q x := by
        rcases hl x (List.mem_cons_self x xs) with h | h
        · exact absurd h hx
        · exact h
      refine ih (x :: cur) ?_ (fun c hcx => hl c (List.mem_cons_of_mem x hcx)) w hw
      intro c hcx
      rcases List.mem_cons.mp hcx with hcx | hcx
      · subst hcx
        exact ⟨hq, Bool.eq_false_iff.mpr hx⟩
      · exact hcur c hcx

theorem map_eq_self_of {α : Type} (f : α → α) (l : List α) (h : ∀ c ∈ l, f c = c) :
    l.map f = l := by
  induction l with
  | nil => rfl
  | cons c rest ih =>
    simp only [List.map_cons, h c (List.mem_cons_self c rest)]
    rw [ih (fun x hx => h x (List.mem_cons_of_mem c hx))]

theorem normalize_toks (x : String) :
    ∃ toks, normalize_team_name x = String.mk (joinSpace toks) ∧ goodToks toks := by
  by_cases hx : x = ""
  · subst hx
    exact ⟨[], rfl, fun w hw => absurd hw (by simp)⟩
  · refine ⟨(pySplit (pyStripList (collapseWs
        (((x.data.map nfkdAscii).flatten.map Char.toLower).map subChar)))).filter
          (fun t => !(stopwords.contains t)), ?_, ?_⟩
    · unfold normalize_team_name
      rw [if_neg hx]
    · intro w hw
      rw [List.mem_filter] at hw
      obtain ⟨hwmem, hwstop⟩ := hw
      have hcharset : ∀ c ∈ pyStripList (collapseWs
          (((x.data.map nfkdAscii).flatten.map Char.toLower).map subChar)),
          c.isWhitespace = true ∨ (97 ≤ c.toNat ∧ c.toNat ≤ 122) := by
        intro c hc
        have hc1 := mem_pyStripList _ c hc
        rcases mem_collapseWsGo _ false c hc1 with h | h
        · left; rw [h]; decide
        · obtain ⟨c', _, hcc⟩ := List.mem_map.mp h
          rcases subChar_range c' with h2 | h2
          · right; rw [← hcc]; exact h2
          · left; rw [← hcc, h2]; decide
      have hsound := pySplitGo_sound (fun c => 97 ≤ c.toNat ∧ c.toNat ≤ 122) _ []
        (by simp) hcharset w hwmem
      refine ⟨hsound.1, fun c hc => ⟨(hsound.2 c hc).1, (hsound.2 c hc).2⟩, ?_⟩
      simpa using hwstop

theorem normalize_goodToks_fixed (toks : List (List Char)) (h : goodToks toks) :
    normalize_team_name (String.mk (joinSpace toks)) = String.mk (joinSpace toks) := by
  have hbasic : ∀ w ∈ toks, w ≠ [] ∧ ∀ c ∈ w, c.isWhitespace = false :=
    fun w hw => ⟨(h w hw).1, fun c hc => ((h w hw).2.1 c hc).2⟩
  cases toks with
  | nil =>
    show normalize_team_name "" = ""
    simp [normalize_team_name]
  | cons w rest =>
    have hne : String.mk (joinSpace (w :: rest)) ≠ "" := by
      intro he
      have hd : joinSpace (w :: rest) = [] := congrArg String.data he
      cases hrest : rest with
      | nil =>
        rw [hrest] at hd
        exact (hbasic w (List.mem_cons_self w rest)).1 hd
      | cons w2 rest2 =>
        rw [hrest] at hd
        simp [joinSpace] at hd
    have hchars : ∀ c ∈ joinSpace (w :: rest),
        (97 ≤ c.toNat ∧ c.toNat ≤ 122) ∨ c = ' ' := by
      intro c hc
      rcases mem_joinSpace _ c hc with ⟨w', hw', hcw⟩ | hsp
      · exact Or.inl ((h w' hw').2.1 c hcw).1
      · exact Or.inr hsp
    have e1 : ((joinSpace (w :: rest)).map nfkdAscii).flatten = joinSpace (w :: rest) := by
      apply flatten_map_eq_self
      intro c hc
      rcases hchars c hc with ⟨h1, h2⟩ | hsp
      · exact lt128_nfkdAscii c (by omega)
      · rw [hsp]; decide
    have e2 : (joinSpace (w :: rest)).map Char.toLower = joinSpace (w :: rest) := by
      apply map_eq_self_of
      intro c hc
      rcases hchars c hc with ⟨h1, h2⟩ | hsp
      · exact az_toLower c h1 h2
      · rw [hsp]; decide
    have e3 : (joinSpace (w :: rest)).map subChar = joinSpace (w :: rest) := by
      apply map_eq_self_of
      intro c hc
      rcases hchars c hc with ⟨h1, h2⟩ | hsp
      · exact az_subChar c h1 h2
      · rw [hsp]; decide
    have e4 : collapseWs (joinSpace (w :: rest)) = joinSpace (w :: rest) :=
      collapse_joinSpace _ hbasic false
    have e5 : pyStripList (joinSpace (w :: rest)) = joinSpace (w :: rest) :=
      strip_joinSpace _ hbasic
    have e6 : pySplit (joinSpace (w :: rest)) = w :: rest :=
      split_joinSpace _ hbasic
    have e7 : (w :: rest).filter (fun t => !(stopwords.contains t)) = w :: rest := by
      apply List.filter_eq_self.mpr
      intro x hx
      show (!(stopwords.contains x)) = true
      rw [(h x hx).2.2]
      rfl
    unfold normalize_team_name
    rw [if_neg hne]
    simp only [show (String.mk (joinSpace (w :: rest))).data = joinSpace (w :: rest)
        from rfl,
      e1, e2, e3, e4, e5, e6, e7]

/-! ## Helper lemmas: the merge engine -/

theorem corroborating_exists_iff (om : MatchRecord) (src : List MatchRecord) :
    (!(corroborating om src).isEmpty) = true
      ↔ ∃ sm ∈ src, teams_match om.home om.away sm.home sm.away = true := by
  unfold corroborating
  rw [Bool.not_eq_true', List.isEmpty_eq_false_iff_exists_mem]
  constructor
  · rintro ⟨sm, hsm⟩
    rw [List.mem_filter] at hsm
    exact ⟨sm, hsm.1, hsm.2⟩
  · rintro ⟨sm, hmem, hp⟩
    exact ⟨sm, List.mem_filter.mpr ⟨hmem, hp⟩⟩

theorem extendChannels_nil_eq (om : MatchRecord) (wtm : List MatchRecord) :
    extendChannels [] (corroborating om wtm) = spec_broadcast_channels om wtm := by
  rw [extendChannels_eq]
  rfl

theorem extendDaddylive_spec (om : MatchRecord) (acc : List String)
    (daddylive : List MatchRecord) :
    extendDaddyliveChannels om acc daddylive = acc ++ spec_streaming_channels om daddylive := by
  rw [extendDaddyliveChannels_eq]
  rfl

theorem mem_flatten_filter_channels (src : List MatchRecord) (p : MatchRecord → Bool)
    (ch : String) (h : ch ∈ ((src.filter p).map MatchRecord.channels).flatten) :
    ∃ sm ∈ src, p sm = true ∧ ch ∈ sm.channels := by
  rw [List.mem_flatten] at h
  obtain ⟨l, hl, hch⟩ := h
  obtain ⟨sm, hsm, hrfl⟩ := List.mem_map.mp hl
  rw [List.mem_filter] at hsm
  exact ⟨sm, hsm.1, hsm.2, hrfl ▸ hch⟩

theorem kickoff_key_decide_eq (m : MatchRecord) :
    decide (kickoff_key m = datetimeMaxKey) = (parseKickoff m.kickoff).isNone := by
  cases hp : parseKickoff m.kickoff with
  | none => simp [kickoff_key, hp]
  | some dt => simp [kickoff_key, hp, Nat.ne_of_lt (parseKickoff_lt_max _ _ hp)]

theorem dedupGo_eq_spec (l : List String) :
    ∀ seen left,
      (∀ k : String, k ∈ seen ↔ (k ≠ "" ∧ ∃ p ∈ left, chanKey p = k))
      → dedupChannelsGo seen l = spec_dedupGo left l := by
  induction l with
  | nil => intro seen left _; rfl
  | cons ch rest ih =>
    intro seen left hinv
    have hcond : (strLower (strStrip ch) ≠ "" ∧ strLower (strStrip ch) ∉ seen)
        ↔ (chanKey ch ≠ "" ∧ ∀ p ∈ left, chanKey p ≠ chanKey ch) := by
      unfold chanKey
      constructor
      · rintro ⟨h1, h2⟩
        exact ⟨h1, fun p hp he => h2 ((hinv _).mpr ⟨h1, p, hp, he⟩)⟩
      · rintro ⟨h1, h2⟩
        refine ⟨h1, fun hmem => ?_⟩
        obtain ⟨_, p, hp, he⟩ := (hinv _).mp hmem
        exact h2 p hp he
    simp only [dedupChannelsGo, spec_dedupGo]
    by_cases hc : strLower (strStrip ch) ≠ "" ∧ strLower (strStrip ch) ∉ seen
    · rw [if_pos hc, if_pos (hcond.mp hc)]
      congr 1
      apply ih
      intro k
      constructor
      · intro hk
        rcases List.mem_cons.mp hk with hk | hk
        · subst hk
          exact ⟨hc.1, ch, by simp, rfl⟩
        · obtain ⟨h1, p, hp, he⟩ := (hinv k).mp hk
          exact ⟨h1, p, by simp [hp], he⟩
      · rintro ⟨h1, p, hp, he⟩
        rcases List.mem_append.mp hp with hp | hp
        · exact List.mem_cons_of_mem _ ((hinv k).mpr ⟨h1, p, hp, he⟩)
        · have : p = ch := List.mem_singleton.mp hp
          subst this
          rw [← he]
          exact List.mem_cons_self _ _
    · rw [if_neg hc, if_neg fun hx => hc (hcond.mpr hx)]
      apply ih
      intro k
      constructor
      · intro hk
        obtain ⟨h1, p, hp, he⟩ := (hinv k).mp hk
        exact ⟨h1, p, by simp [hp], he⟩
      · rintro ⟨h1, p, hp, he⟩
        rcases List.mem_append.mp hp with hp | hp
        · exact (hinv k).mpr ⟨h1, p, hp, he⟩
        · have hpch : p = ch := List.mem_singleton.mp hp
          subst hpch
          rw [Decidable.not_and_iff_or_not] at hc
          rcases hc with hc | hc
          · rw [Decidable.not_not] at hc
            unfold chanKey at he
            exact absurd (he ▸ hc) h1
          · rw [Decidable.not_not] at hc
            unfold chanKey at he
            exact he ▸ hc

theorem merge_one_map_dropChannels (banned allowed : List String)
    (wtm allfootball : List MatchRecord) (daddylive daddylive2 : List MatchRecord)
    (om : MatchRecord) :
    (merge_one banned allowed wtm daddylive allfootball om).map dropChannels
      = (merge_one banned allowed wtm daddylive2 allfootball om).map dropChannels := by
  unfold merge_one
  by_cases hb : is_banned_match banned om.home om.away om.competition = true
  · simp [hb]
  · rw [if_neg hb, if_neg hb]
    by_cases h1 : (!(corroborating om wtm).isEmpty) = true
    · simp [h1, dropChannels]
    · rw [Bool.not_eq_true] at h1
      by_cases h2 : (!(corroborating om allfootball).isEmpty) = true
      · simp [h1, h2, dropChannels]
      · rw [Bool.not_eq_true] at h2
        simp [h1, h2, dropChannels]

/-! ## The claims -/

/-- **C9**: `normalize` (`normalize_team_name`) is idempotent: for every
input string `x`, `normalize(normalize(x)) = normalize(x)`. -/
theorem c9_normalize_idempotent (x : String) :
    normalize_team_name (normalize_team_name x) = normalize_team_name x := by
  obtain ⟨toks, he, hg⟩ := normalize_toks x
  rw [he]
  exact normalize_goodToks_fixed toks hg

/-- **C9** witness: idempotence evaluated at the concrete input
`"Deportivo Alavés FC"`. -/
theorem c9_normalize_idempotent_witness :
    normalize_team_name (normalize_team_name "Deportivo Alavés FC")
      = normalize_team_name "Deportivo Alavés FC" :=
  c9_normalize_idempotent "Deportivo Alavés FC"

/-- **C5** (amended): per-record error recovery differs by source.  The
AllFootball loop guards each record with its own `try`/`except ...
continue`, so it equals a per-record `filterMap`: a failing record is
skipped and every sibling is returned unaffected.  The OneFootball loop
has no per-record guard around its kickoff `strptime`: a failing record
aborts the loop, returning only the records parsed before it. -/
theorem c5_record_error_recovery :
    (∀ today raws,
        processAllFootball today raws = raws.filterMap (parseAllFootballRecord today))
      ∧ (∀ raws, processOneFootball raws
          = (raws.takeWhile (fun r => (parseOneFootballRecord r).isSome)).filterMap
              parseOneFootballRecord) :=
  ⟨processAllFootball_eq, processOneFootball_eq⟩

/-- **C5** counterexample: in the OneFootball loop a malformed record is
not recovered locally — the parseable sibling `cex5_good2` after the bad
record is lost (1 record returned instead of 2). -/
theorem c5_counterexample :
    parseOneFootballRecord cex5_bad = none
      ∧ (parseOneFootballRecord cex5_good2).isSome = true
      ∧ (processOneFootball [cex5_good1, cex5_bad, cex5_good2]).length = 1
      ∧ (processOneFootball [cex5_good1, cex5_good2]).length = 2 := by
  refine ⟨by decide, by decide, by decide, by decide⟩

/-- **C6** (amended): loading the ban file yields the lower-cased
stripped entry of each non-blank line, blank (whitespace-only) lines
being ignored; comment lines are NOT ignored (there is no comment
handling — a `#`-line is loaded as an ordinary entry); a missing file
yields the empty ban set rather than an error. -/
theorem c6_ban_list_loading :
    (∀ (lines : List String) (x : String),
        x ∈ load_banned_tournaments (some lines)
          ↔ ∃ line ∈ lines, strStrip line ≠ "" ∧ x = strLower (strStrip line))
      ∧ load_banned_tournaments none = [] := by
  constructor
  · intro lines x
    unfold load_banned_tournaments
    rw [List.mem_filterMap]
    constructor
    · rintro ⟨line, hline, hf⟩
      by_cases hs : strStrip line = ""
      · rw [if_pos hs] at hf
        exact absurd hf (by simp)
      · rw [if_neg hs] at hf
        exact ⟨line, hline, hs, (Option.some.inj hf).symm⟩
    · rintro ⟨line, hline, hs, hx⟩
      exact ⟨line, hline, by rw [if_neg hs, hx]⟩
  · rfl

/-- **C6** counterexample: a comment line is not ignored — it is loaded
as the ban entry `"# premier league"`. -/
theorem c6_counterexample :
    load_banned_tournaments (some ["# Premier League", "   ", "NWSL"])
        = ["# premier league", "nwsl"]
      ∧ "# premier league"
          ∈ load_banned_tournaments (some ["# Premier League", "   ", "NWSL"]) := by
  refine ⟨by decide, by decide⟩

/-- **C8** (amended): the deduplication keeps a label iff its stripped
lower-cased key is non-empty and no earlier label has the same key — so
besides case-insensitive duplicates of earlier labels it also removes
labels that are empty or whitespace-only after stripping, and it
compares keys stripped of surrounding whitespace; first-seen order and
the original casing of first occurrences are preserved, and
`["ESPN", "espn", "Fox Sports"]` yields `["ESPN", "Fox Sports"]`. -/
theorem c8_channel_dedup :
    (∀ channels, dedupChannels channels = spec_dedup channels)
      ∧ dedupChannels ["ESPN", "espn", "Fox Sports"] = ["ESPN", "Fox Sports"] := by
  constructor
  · intro channels
    unfold dedupChannels spec_dedup
    apply dedupGo_eq_spec
    intro k
    simp
  · decide

/-- **C8** counterexample: removal is not exactly "labels that duplicate
an earlier label case-insensitively": a label that is empty (or
whitespace-only) duplicates nothing yet is removed, and `" espn "` is
removed against `"ESPN"` although they differ by more than case. -/
theorem c8_counterexample :
    dedupChannels [""] = []
      ∧ dedupChannels ["   "] = []
      ∧ dedupChannels ["ESPN", " espn "] = ["ESPN"] := by
  refine ⟨by decide, by decide, by decide⟩

/-- **C10**: the streaming source (DaddyLive) never influences which
fixtures are emitted or their order: two runs differing only in the
streaming-source list produce the same merged fixtures in the same
order, equal in every field except possibly `channels`. -/
theorem c10_streaming_no_influence (banned : List String)
    (onefootball wtm daddylive daddylive2 allfootball : List MatchRecord) :
    (merge_matches banned onefootball wtm daddylive allfootball).map dropChannels
      = (merge_matches banned onefootball wtm daddylive2 allfootball).map dropChannels := by
  unfold merge_matches
  rw [map_sortByKeyNat kickoff_key kickoff_key dropChannels (fun a => rfl),
      map_sortByKeyNat kickoff_key kickoff_key dropChannels (fun a => rfl)]
  congr 1
  unfold merge_pass2
  rw [List.map_filterMap, List.map_filterMap]
  congr 1
  funext om
  exact merge_one_map_dropChannels banned
    (allowed_tournaments banned onefootball wtm allfootball) wtm allfootball
    daddylive daddylive2 om

/-- **C2**: after Pass 1 the allow-list contains exactly the lower-cased
competitions of the unbanned authoritative fixtures with at least one
corroborating broadcast-schedule or secondary-source fixture (via
`teams_match`); and the allow-list is built entirely before Pass 2,
which only reads the already-completed value. -/
theorem c2_allow_list (banned : List String)
    (onefootball wtm allfootball : List MatchRecord) :
    (∀ c : String, c ∈ allowed_tournaments banned onefootball wtm allfootball
       ↔ ∃ om ∈ onefootball,
           is_banned_match banned om.home om.away om.competition = false
           ∧ ((∃ wm ∈ wtm, teams_match om.home om.away wm.home wm.away = true)
              ∨ (∃ am ∈ allfootball, teams_match om.home om.away am.home am.away = true))
           ∧ strLower om.competition = c)
      ∧ ∀ daddylive, merge_matches banned onefootball wtm daddylive allfootball
          = sortByKeyNat kickoff_key
              (merge_pass2 banned (allowed_tournaments banned onefootball wtm allfootball)
                onefootball wtm daddylive allfootball) := by
  constructor
  · intro c
    unfold allowed_tournaments
    rw [List.mem_map]
    constructor
    · rintro ⟨om, hom, hc⟩
      rw [List.mem_filter] at hom
      obtain ⟨hmem, hcond⟩ := hom
      rw [Bool.and_eq_true, Bool.not_eq_true', Bool.or_eq_true] at hcond
      refine ⟨om, hmem, hcond.1, ?_, hc⟩
      rcases hcond.2 with h | h
      · exact Or.inl ((corroborating_exists_iff om wtm).mp h)
      · exact Or.inr ((corroborating_exists_iff om allfootball).mp h)
    · rintro ⟨om, hmem, hb, hcor, hc⟩
      refine ⟨om, List.mem_filter.mpr ⟨hmem, ?_⟩, hc⟩
      rw [Bool.and_eq_true, Bool.not_eq_true', Bool.or_eq_true]
      refine ⟨hb, ?_⟩
      rcases hcor with h | h
      · exact Or.inl ((corroborating_exists_iff om wtm).mpr h)
      · exact Or.inr ((corroborating_exists_iff om allfootball).mpr h)
  · intro daddylive
    rfl

/-- **C1**: Pass 2, processed in the authoritative source's original
order, emits an unbanned fixture iff it has a corroborating
broadcast-schedule match, or else a corroborating secondary-source
match, or else its lower-cased competition is in the Pass-1 allow-list;
with broadcast corroboration the collected channels are the broadcast
matches' channels followed by the matching streaming-source channels, in
the other two cases only the matching streaming-source channels; a
fixture meeting none of the three conditions is discarded. -/
theorem c1_pass2_emission (banned allowed : List String)
    (onefootball wtm daddylive allfootball : List MatchRecord) :
    merge_pass2 banned allowed onefootball wtm daddylive allfootball
      = onefootball.filterMap (fun om =>
          if is_banned_match banned om.home om.away om.competition = true then none
          else (spec_collected_channels om wtm daddylive allfootball allowed).map
            (fun chs => { om with channels := dedupChannels chs })) := by
  unfold merge_pass2
  congr 1
  funext om
  unfold merge_one spec_collected_channels
  by_cases hb : is_banned_match banned om.home om.away om.competition = true
  · simp [hb]
  · rw [if_neg hb, if_neg hb]
    by_cases hb1 : (!(corroborating om wtm).isEmpty) = true
    · rw [if_pos hb1, if_pos ((corroborating_exists_iff om wtm).mp hb1)]
      rw [extendDaddylive_spec, extendChannels_nil_eq]
      rfl
    · rw [if_neg hb1, if_neg (fun hx => hb1 ((corroborating_exists_iff om wtm).mpr hx))]
      by_cases hb2 : (!(corroborating om allfootball).isEmpty) = true
      · rw [if_pos hb2, if_pos ((corroborating_exists_iff om allfootball).mp hb2)]
        rw [extendDaddylive_spec]
        rfl
      · rw [if_neg hb2,
          if_neg (fun hx => hb2 ((corroborating_exists_iff om allfootball).mpr hx))]
        have hmem : allowed.contains (strLower om.competition) = true
            ↔ strLower om.competition ∈ allowed := by simp
        by_cases hb3 : allowed.contains (strLower om.competition) = true
        · rw [if_pos hb3, if_pos (hmem.mp hb3)]
          rw [extendDaddylive_spec]
          rfl
        · rw [if_neg hb3, if_neg (fun hx => hb3 (hmem.mpr hx))]
          rfl

/-- **C3** counterexample: `"Not specified"` does occur as a data value
in a merged fixture's channel list.  The broadcast fetcher replaces an
empty channel scrape by `["Not specified"]` (`defaultChannels []`), the
fixture corroborates the authoritative one, and the merge collects and
keeps the sentinel (its dedup key `"not specified"` is non-empty). -/
theorem c3_counterexample :
    merge_matches [] [cex3_om] [cex3_wm] [] []
        = [{ cex3_om with channels := ["Not specified"] }]
      ∧ "Not specified" ∈ ({ cex3_om with channels := ["Not specified"] } : MatchRecord).channels := by
  refine ⟨by decide, by decide⟩

/-- **C3** (amended): the merge itself introduces no channel label —
every channel of a merged fixture comes verbatim from the channel list
of a corroborating (teams-matching) broadcast-schedule or
streaming-source fixture; but `"Not specified"` can occur as a data
value because those fetchers substitute `["Not specified"]` for an
empty channel list and the merge propagates it. -/
theorem c3_merged_channels_from_sources (banned : List String)
    (onefootball wtm daddylive allfootball : List MatchRecord) (m : MatchRecord)
    (ch : String) (hm : m ∈ merge_matches banned onefootball wtm daddylive allfootball)
    (hc : ch ∈ m.channels) :
    (∃ wm ∈ wtm, teams_match m.home m.away wm.home wm.away = true ∧ ch ∈ wm.channels)
      ∨ (∃ dm ∈ daddylive,
          teams_match m.home m.away dm.home dm.away = true ∧ ch ∈ dm.channels) := by
  have hm' : m ∈ merge_pass2 banned (allowed_tournaments banned onefootball wtm allfootball)
      onefootball wtm daddylive allfootball := by
    rw [← mem_sortByKeyNat kickoff_key]
    exact hm
  obtain ⟨om, hom, heq⟩ := List.mem_filterMap.mp hm'
  unfold merge_one at heq
  by_cases hb : is_banned_match banned om.home om.away om.competition = true
  · rw [if_pos hb] at heq
    exact absurd heq (by simp)
  · rw [if_neg hb] at heq
    by_cases hb1 : (!(corroborating om wtm).isEmpty) = true
    · rw [if_pos hb1] at heq
      have hmeq := Option.some.inj heq
      subst hmeq
      have hc2 : ch ∈ extendDaddyliveChannels om
          (extendChannels [] (corroborating om wtm)) daddylive :=
        mem_dedupChannels _ ch hc
      rw [extendDaddylive_spec, extendChannels_nil_eq] at hc2
      rcases List.mem_append.mp hc2 with h | h
      · obtain ⟨wm, hwm, hp, hch⟩ := mem_flatten_filter_channels wtm _ ch h
        exact Or.inl ⟨wm, hwm, hp, hch⟩
      · obtain ⟨dm, hdm, hp, hch⟩ := mem_flatten_filter_channels daddylive _ ch h
        exact Or.inr ⟨dm, hdm, hp, hch⟩
    · rw [if_neg hb1] at heq
      by_cases hb2 : (!(corroborating om allfootball).isEmpty) = true
      · rw [if_pos hb2] at heq
        have hmeq := Option.some.inj heq
        subst hmeq
        have hc2 : ch ∈ extendDaddyliveChannels om [] daddylive :=
          mem_dedupChannels _ ch hc
        rw [extendDaddylive_spec] at hc2
        rcases List.mem_append.mp hc2 with h | h
        · exact absurd h (by simp)
        · obtain ⟨dm, hdm, hp, hch⟩ := mem_flatten_filter_channels daddylive _ ch h
          exact Or.inr ⟨dm, hdm, hp, hch⟩
      · rw [if_neg hb2] at heq
        by_cases hb3 :
          (allowed_tournaments banned onefootball wtm allfootball).contains
            (strLower om.competition) = true
        · rw [if_pos hb3] at heq
          have hmeq := Option.some.inj heq
          subst hmeq
          have hc2 : ch ∈ extendDaddyliveChannels om [] daddylive :=
            mem_dedupChannels _ ch hc
          rw [extendDaddylive_spec] at hc2
          rcases List.mem_append.mp hc2 with h | h
          · exact absurd h (by simp)
          · obtain ⟨dm, hdm, hp, hch⟩ := mem_flatten_filter_channels daddylive _ ch h
            exact Or.inr ⟨dm, hdm, hp, hch⟩
        · rw [if_neg hb3] at heq
          exact absurd heq (by simp)

/-- **C3** witness: the amended theorem applied at the counterexample
input — the sentinel channel of the merged fixture comes from the
channel list of the corroborating (teams-matching) broadcast fixture. -/
theorem c3_merged_channels_from_sources_witness :
    (∃ wm ∈ [cex3_wm],
        teams_match cex3_om.home cex3_om.away wm.home wm.away = true
          ∧ "Not specified" ∈ wm.channels)
      ∨ (∃ dm ∈ ([] : List MatchRecord),
          teams_match cex3_om.home cex3_om.away dm.home dm.away = true
            ∧ "Not specified" ∈ dm.channels) :=
  c3_merged_channels_from_sources [] [cex3_om] [cex3_wm] [] []
    { cex3_om with channels := ["Not specified"] } "Not specified"
    (by decide) (by decide)

/-- **C4** (amended): `names_equivalent` decides by the fixed
short-circuit cascade — false when either normalized form is empty, then
token-set overlap, then whole-string similarity ratio ≥ 80, then best
partial-alignment similarity ≥ 80, then substring containment, else
false; extensionally it holds iff both normalized forms are non-empty
and one of the four positive conditions holds.  (The whole-string ratio
is the plain order-sensitive InDel ratio of the normalized strings —
permuting tokens CAN change the outcome; see the counterexample.) -/
theorem c4_equivalence_cascade (n1 n2 : String) :
    names_equivalent n1 n2 = true
      ↔ (normalize_team_name n1 ≠ "" ∧ normalize_team_name n2 ≠ ""
         ∧ ((∃ tk ∈ pySplit (normalize_team_name n1).data,
                tk ∈ pySplit (normalize_team_name n2).data)
            ∨ fuzz.ratio_ge 80 (normalize_team_name n1) (normalize_team_name n2) = true
            ∨ fuzz.part_ratio_ge 80 (normalize_team_name n1) (normalize_team_name n2) = true
            ∨ (normalize_team_name n1).data <:+: (normalize_team_name n2).data
            ∨ (normalize_team_name n2).data <:+: (normalize_team_name n1).data)) := by
  unfold names_equivalent
  by_cases h1 : normalize_team_name n1 = ""
  · simp [h1]
  by_cases h2 : normalize_team_name n2 = ""
  · simp [h1, h2]
  simp only [h1, h2, decide_False, Bool.or_self, Bool.false_eq_true, if_false]
  by_cases h3 : (pySplit (normalize_team_name n1).data).any
      (fun tk => (pySplit (normalize_team_name n2).data).contains tk) = true
  · rw [if_pos h3]
    refine ⟨fun _ => ⟨h1, h2, Or.inl ?_⟩, fun _ => rfl⟩
    rw [List.any_eq_true] at h3
    obtain ⟨tk, htk, hc⟩ := h3
    exact ⟨tk, htk, by simpa using hc⟩
  · rw [if_neg h3]
    by_cases h4 : fuzz.ratio_ge 80 (normalize_team_name n1) (normalize_team_name n2) = true
    · rw [if_pos h4]
      exact ⟨fun _ => ⟨h1, h2, Or.inr (Or.inl h4)⟩, fun _ => rfl⟩
    · rw [if_neg h4]
      by_cases h5 : fuzz.part_ratio_ge 80 (normalize_team_name n1)
          (normalize_team_name n2) = true
      · rw [if_pos h5]
        exact ⟨fun _ => ⟨h1, h2, Or.inr (Or.inr (Or.inl h5))⟩, fun _ => rfl⟩
      · rw [if_neg h5]
        by_cases h6 : (containsSub (normalize_team_name n1).data
              (normalize_team_name n2).data
            || containsSub (normalize_team_name n2).data
              (normalize_team_name n1).data) = true
        · rw [if_pos h6]
          refine ⟨fun _ => ⟨h1, h2, ?_⟩, fun _ => rfl⟩
          rw [Bool.or_eq_true] at h6
          rcases h6 with h | h
          · exact Or.inr (Or.inr (Or.inr (Or.inl ((containsSub_iff _ _).mp h))))
          · exact Or.inr (Or.inr (Or.inr (Or.inr ((containsSub_iff _ _).mp h))))
        · rw [if_neg h6]
          constructor
          · intro hf
            exact absurd hf (by simp)
          · rintro ⟨_, _, hov | h4' | h5' | hs1 | hs2⟩
            · exfalso
              apply h3
              rw [List.any_eq_true]
              obtain ⟨tk, htk, hm⟩ := hov
              exact ⟨tk, htk, by simpa using hm⟩
            · exact absurd h4' h4
            · exact absurd h5' h5
            · exfalso
              apply h6
              rw [Bool.or_eq_true]
              exact Or.inl ((containsSub_iff _ _).mpr hs1)
            · exfalso
              apply h6
              rw [Bool.or_eq_true]
              exact Or.inr ((containsSub_iff _ _).mpr hs2)

/-- **C4** counterexample: the whole-string ratio step is not
token-order-insensitive.  `"fghiy abcdx"` is a token permutation of
`"abcdx fghiy"` (both normalize to themselves), yet against
`"abcde fghij"` the original passes the ratio-≥-80 step (InDel ratio
200·9/22 ≈ 81.8) while the permuted form fails every step. -/
theorem c4_counterexample :
    (pySplit (normalize_team_name "fghiy abcdx").data).Perm
        (pySplit (normalize_team_name "abcdx fghiy").data)
      ∧ names_equivalent "abcde fghij" "abcdx fghiy" = true
      ∧ names_equivalent "abcde fghij" "fghiy abcdx" = false := by
  refine ⟨by decide, by decide, by decide⟩

/-- **C7**: the final merged list is ordered ascending by parsed kickoff
(`kickoff_key`); every fixture whose kickoff does not parse (e.g.
`"Unknown"`) sorts after all fixtures with a parseable kickoff, and the
unparseable fixtures keep their pre-sort relative order among
themselves; in particular kickoffs `20:00`, `"Unknown"`, `09:00` sort to
`09:00`, `20:00`, `"Unknown"`. -/
theorem c7_final_ordering :
    (∀ banned onefootball wtm daddylive allfootball,
      List.Pairwise (fun a b => kickoff_key a ≤ kickoff_key b)
          (merge_matches banned onefootball wtm daddylive allfootball)
      ∧ merge_matches banned onefootball wtm daddylive allfootball
          = (merge_matches banned onefootball wtm daddylive allfootball).filter
              (fun m => (parseKickoff m.kickoff).isSome)
            ++ (merge_matches banned onefootball wtm daddylive allfootball).filter
              (fun m => (parseKickoff m.kickoff).isNone)
      ∧ (merge_matches banned onefootball wtm daddylive allfootball).filter
            (fun m => (parseKickoff m.kickoff).isNone)
          = (merge_pass2 banned (allowed_tournaments banned onefootball wtm allfootball)
              onefootball wtm daddylive allfootball).filter
              (fun m => (parseKickoff m.kickoff).isNone))
    ∧ sortByKeyNat kickoff_key [c7_r20, c7_rUnknown, c7_r09]
        = [c7_r09, c7_r20, c7_rUnknown] := by
  constructor
  · intro banned onefootball wtm daddylive allfootball
    have hsorted : List.Pairwise (fun a b => kickoff_key a ≤ kickoff_key b)
        (merge_matches banned onefootball wtm daddylive allfootball) :=
      pairwise_sortByKeyNat kickoff_key _
    refine ⟨hsorted, ?_, ?_⟩
    · have hpart := sorted_partition kickoff_key datetimeMaxKey
        (merge_matches banned onefootball wtm daddylive allfootball) hsorted
        (fun x _ => kickoff_key_le_max x)
      have hfp : (merge_matches banned onefootball wtm daddylive allfootball).filter
            (fun x => !(decide (kickoff_key x = datetimeMaxKey)))
          = (merge_matches banned onefootball wtm daddylive allfootball).filter
            (fun m => (parseKickoff m.kickoff).isSome) := by
        apply List.filter_congr
        intro m _
        rw [kickoff_key_decide_eq]
        cases parseKickoff m.kickoff <;> rfl
      have hfq : (merge_matches banned onefootball wtm daddylive allfootball).filter
            (fun x => decide (kickoff_key x = datetimeMaxKey))
          = (merge_matches banned onefootball wtm daddylive allfootball).filter
            (fun m => (parseKickoff m.kickoff).isNone) := by
        apply List.filter_congr
        intro m _
        rw [kickoff_key_decide_eq]
      rw [← hfp, ← hfq]
      exact hpart
    · have hstable := filter_sortByKeyNat kickoff_key datetimeMaxKey
        (merge_pass2 banned (allowed_tournaments banned onefootball wtm allfootball)
          onefootball wtm daddylive allfootball)
      have hfq1 : ∀ l : List MatchRecord,
          l.filter (fun x => decide (kickoff_key x = datetimeMaxKey))
            = l.filter (fun m => (parseKickoff m.kickoff).isNone) := by
        intro l
        apply List.filter_congr
        intro m _
        rw [kickoff_key_decide_eq]
      rw [← hfq1, ← hfq1]
      exact hstable
  · decide
